import Mathlib

/-!
Shallow embedding of the DAAFS storage engine (src/utils.rs, src/metadata.rs,
src/cache.rs, src/queue.rs, src/lib.rs).

Conventions of the embedding:
* Rust `u64`/`usize`/`u8` values are `Nat`; the operations the engine performs on
  them (division, multiplication, comparison, in-bounds subtraction, bitwise
  and/or/xor/shift on byte values) never overflow at the sizes involved, so no
  modular reduction is needed.
* Byte buffers (`Vec<u8>`) are `List Nat`.
* Code that can panic (`unwrap`, out-of-bounds indexing) is embedded with
  `Option`: `none` models the Rust abort.
* The remote message store (Discord) is a parameter `fetch : Nat → List Nat`
  mapping a message id to the bytes of its attachment; sending a message is
  modelled by a `freshId` parameter carrying the id the store would assign.
* Mutexes are irrelevant in the sequential embedding and are dropped; `&mut`
  methods return the updated value alongside the Rust return value.
-/

namespace DAAFS

set_option maxRecDepth 40000

set_option maxHeartbeats 2000000

/-- Byte buffers (`Vec<u8>` in the source). -/
abbrev Bytes := List Nat

/-! ## BitMask (src/utils.rs) -/

/-- The `BitMask<const S: usize>`; the engine only uses `S = 256` (2048 bits,
one per 4 KiB sub-block of an 8 MiB page). The 256-byte backing array is a
list of byte values. -/
structure BitMask where
  mask : List Nat
deriving DecidableEq

/-- The `BitMask::new`: all-zero backing array (`[0; 256]`). -/
def BitMask.new : BitMask := ⟨List.replicate 256 0⟩

/-- The `BitMask::from_bytes`: starts from `[0; 256]` and copies the given bytes in
from index 0 (longer input would index out of bounds in Rust; callers pass at
most 256 bytes). -/
def BitMask.from_bytes (bytes : List Nat) : BitMask :=
  ⟨bytes ++ List.replicate (256 - bytes.length) 0⟩

/-- The `BitMask::as_bytes`. -/
def BitMask.as_bytes (m : BitMask) : List Nat := m.mask

/-- The `BitMask::get`: bit `index` lives in byte `index / 8`, bit `index % 8`
(LSB first). `mask[byte] & (1 << bit) != 0`. -/
def BitMask.get (m : BitMask) (index : Nat) : Bool :=
  (m.mask.getD (index / 8) 0).testBit (index % 8)

/-- The `BitMask::set`: `mask[byte] |= 1 << bit` or `mask[byte] &= !(1 << bit)`;
the `u8` complement `!(1 << bit)` is `255 ^^^ (1 <<< bit)` since `bit < 8`. -/
def BitMask.set (m : BitMask) (index : Nat) (value : Bool) : BitMask :=
  let byte := index / 8
  let bit := index % 8
  let old := m.mask.getD byte 0
  ⟨m.mask.set byte (if value then old ||| (1 <<< bit) else old &&& (255 ^^^ (1 <<< bit)))⟩

/-! ## Base32 / base255 codecs (src/utils.rs) -/

/-- The base32 digit alphabet `"0123456789abcdefghijklmnopqrstuv"`. -/
def base32Alphabet : List Char := "0123456789abcdefghijklmnopqrstuv".toList

/-- Digit character for a value `< 32` (`alphabet.chars().nth(index).unwrap()`). -/
def base32Char (d : Nat) : Char := base32Alphabet.getD d '0'

/-- The `alphabet.find(c)`: index of `c` in the base32 alphabet, `none` when the
character is not a base32 digit (where Rust `unwrap` would panic). -/
def base32Digit (c : Char) : Option Nat :=
  base32Alphabet.findIdx? (fun b => b == c)

/-- The digit-emitting loop of `to_base32`, least-significant digit first:
`while value > 0 { push alphabet[value % 32]; value /= 32 }`. The loop is
embedded with structural recursion on a fuel bound so that it evaluates; with
`fuel ≥ value` the fuel never runs out, since `value / 32 < value`. -/
def to_base32Loop : Nat → Nat → List Char
  | _, 0 => []
  | 0, _ + 1 => []
  | f + 1, v + 1 => base32Char ((v + 1) % 32) :: to_base32Loop f ((v + 1) / 32)

/-- The digit loop at its own value as (always sufficient) fuel. -/
def to_base32Aux (value : Nat) : List Char := to_base32Loop value value

/-- The `to_base32`: digits are collected least-significant first and reversed;
the empty result (value 0) becomes `"0"`. -/
def to_base32 (value : Nat) : List Char :=
  let result := to_base32Aux value
  if result = [] then ['0'] else result.reverse

/-- The accumulation loop of `from_base32` over the reversed digit string:
`result += index * 32^i`. `none` when some character is not a base32 digit
(Rust panics there). -/
def from_base32Aux : List Char → Option Nat
  | [] => some 0
  | c :: rest =>
    match base32Digit c, from_base32Aux rest with
    | some d, some r => some (d + 32 * r)
    | _, _ => none

/-- The `from_base32` iterates `value.chars().rev()`. -/
def from_base32 (value : List Char) : Option Nat :=
  from_base32Aux value.reverse

/-- The `BASE_255_ALPHABET` from src/utils.rs, verbatim: 256 distinct characters,
byte value = index. -/
def BASE_255_ALPHABET : List Char :=
  "0123456789ABCDEFGHIJKLMNOPQRSTUVWXYZabcdefghijklmnopqrstuvwxyz!\"#$%&\x27()+,-./:;<=>?@[]^\x7b\x7d~‰£¤¥¦§«¬²³µÀÁÂÃÄÅÆÇÈÉÊËÌÍÎÏÐÑÒØßàáâãäåæçèéêëìþÿǷǾǿɅɆɄɃȽȾȺȸȹɎʘʗʖʕʔʓʒʑʊʇʆʁʂϠϡϢϭϱϺϻϿϾϼ◔◍◎◐◑◒◓◚◛◳◲◱◰◯◿◜◝◞◟◠◡◉◊▣▤▥▦▧▨▩▚▙▜▛▝▞▟▂▃▄▅▆▇█▉▊▋▌▍░▒▓①②③④⑤⑥⑦⑧⑨⑩⑪⑫⑬⑭⑮ⒶⒷⒸⒹⒺⒻⒼⒽⒾⒿ⑴⑵⑶⑷⑸⑹‹".toList

/-- The `byte_to_base_255`: `BASE_255_ALPHABET.chars().nth(byte).unwrap()`
(always in range for a `u8`). -/
def byte_to_base_255 (byte : Nat) : Char := BASE_255_ALPHABET.getD byte '0'

/-- The `base_255_to_byte`: linear scan for the first matching alphabet entry;
characters outside the alphabet fall through to `return 0`. -/
def base_255_to_byte (c : Char) : Nat :=
  match BASE_255_ALPHABET.findIdx? (fun b => b == c) with
  | some i => i
  | none => 0

/-! ## Text splitting

Rust `str::split(sep)` and `str::lines()` on the characters of the record
text (none of the records contain `'\r'`, so `lines` is `split('\n')` minus a
trailing empty piece). -/

/-- The `str::split(sep)` on a character list: always returns at least one piece,
adjacent separators yield empty pieces. -/
def splitSep (sep : Char) : List Char → List (List Char)
  | [] => [[]]
  | c :: rest =>
    match splitSep sep rest with
    | [] => if c == sep then [[], []] else [[c]]
    | h :: t => if c == sep then [] :: h :: t else (c :: h) :: t

/-- The `str::lines()`: split on `'\n'`, dropping the final empty piece produced
by a trailing newline. -/
def rustLines (text : List Char) : List (List Char) :=
  let parts := splitSep '\n' text
  if parts.getLast? = some [] then parts.dropLast else parts

/-! ## Page and MetadataBlock (src/metadata.rs) -/

/-- A `Page`: `offset` is the page index (the byte offset divided by 8 MiB),
`message_id` the remote handle (0 = unpersisted), `zero_mask` one bit per
4 KiB sub-block. -/
structure Page where
  offset : Nat
  message_id : Nat
  zero_mask : BitMask
deriving DecidableEq

/-- The `Page::new`. -/
def Page.new (offset : Nat) : Page :=
  { offset := offset, message_id := 0, zero_mask := BitMask.new }

/-- The `Page::from_text`: decodes each character of the mask field into the
256-byte array `[0; 256]`; more than 256 characters would index out of
bounds (`none` models that panic). -/
def Page.from_text (message_id offset : Nat) (text : List Char) : Option Page :=
  if text.length ≤ 256 then
    some { offset := offset, message_id := message_id,
           zero_mask := BitMask.from_bytes (text.map base_255_to_byte) }
  else
    none

/-- The `Page::as_text`: one base255 character per mask byte. -/
def Page.as_text (p : Page) : List Char :=
  p.zero_mask.as_bytes.map byte_to_base_255

/-- The `Page::read` at an absolute offset: if the zero-mask bit of the addressed
sub-block is set, an 8 MiB zero buffer; otherwise the whole attachment fetched
from the page's message id. -/
def Page.read (fetch : Nat → Bytes) (p : Page) (offset : Nat) : Bytes :=
  let rel := offset - p.offset * (1024 * 1024 * 8)
  if p.zero_mask.get (rel / 4096) then
    List.replicate (1024 * 1024 * 8) 0
  else
    fetch p.message_id

/-- The element-wise copy `current_data[offset + i] = data[i]` of `Page::write`
(and `copy_from_slice` in `Cache::write`); equals the obvious splice whenever
`offset + data.length ≤ cur.length` (Rust panics otherwise). -/
def spliceBytes (cur : Bytes) (offset : Nat) (data : Bytes) : Bytes :=
  cur.take offset ++ data ++ cur.drop (offset + data.length)

/-- The `Page::write` at absolute offset `ooffset`: materializes the current 8 MiB
buffer (zeros when unpersisted, `Page::read` otherwise); an all-zero chunk only
sets the sub-block's zero-mask bit and returns the unmodified buffer; otherwise
the chunk is spliced in and returned. Returns the Rust return value paired with
the mutated `self` (the upload is commented out in the source, so the mask bit
is never cleared and `message_id` never changes here). -/
def Page.write (fetch : Nat → Bytes) (p : Page) (ooffset : Nat) (data : Bytes) :
    Option (Bytes × Page) × Page :=
  let offset := ooffset - p.offset * (1024 * 1024 * 8)
  let current : Bytes :=
    if p.message_id ≠ 0 then Page.read fetch p ooffset
    else List.replicate (1024 * 1024 * 8) 0
  if data.all (fun byte => byte == 0) then
    let p2 := { p with zero_mask := p.zero_mask.set (offset / 4096) true }
    (some (current, p2), p2)
  else
    (some (spliceBytes current offset data, p), p)

/-- A `MetadataBlock` (page directory): remote record id plus up to 5 pages. -/
structure MetadataBlock where
  message_id : Nat
  pages : List Page
deriving DecidableEq

/-- The `MetadataBlock::empty`. -/
def MetadataBlock.empty (message_id : Nat) : MetadataBlock :=
  { message_id := message_id, pages := [] }

/-- One body line of `MetadataBlock::from_text`: three `split(':')` fields
(`unwrap` on a missing field panics, further fields are ignored), the first
two parsed as base32, the third as the page's mask text. -/
def parsePageLine (line : List Char) : Option Page :=
  match splitSep ':' line with
  | f0 :: f1 :: f2 :: _ =>
    match from_base32 f0, from_base32 f1 with
    | some offset, some message_id => Page.from_text message_id offset f2
    | _, _ => none
  | _ => none

/-- The `MetadataBlock::from_text`: skip the first line (the `METABLOCK` header
position), parse every remaining line as a page; `none` models the panics on
malformed lines. -/
def MetadataBlock.from_text (message_id : Nat) (text : List Char) : Option MetadataBlock :=
  (((rustLines text).drop 1).mapM parsePageLine).map
    (fun pages => { message_id := message_id, pages := pages })

/-- The `MetadataBlock::as_text`: `"METABLOCK\n"` then
`<offset>:<message_id>:<mask>\n` per page. -/
def MetadataBlock.as_text (d : MetadataBlock) : List Char :=
  "METABLOCK\n".toList ++
    (d.pages.map (fun p =>
      to_base32 p.offset ++ [':'] ++ to_base32 p.message_id ++ [':'] ++ p.as_text ++ ['\n'])).flatten

/-- The `MetadataBlock::try_read`: find the page whose index is `offset / 8MiB`;
`none` when absent, otherwise the buffer from `Page::read` with a copy of the
page. -/
def MetadataBlock.try_read (fetch : Nat → Bytes) (d : MetadataBlock) (offset : Nat) :
    Option (Bytes × Page) :=
  match d.pages.find? (fun page => page.offset == offset / (1024 * 1024 * 8)) with
  | some page => some (Page.read fetch page offset, page)
  | none => none

/-- The `MetadataBlock::update_message`: a directory with no remote record yet
(`message_id == 0`) sends one and stores the new id (`freshId`); otherwise the
existing record is edited in place and the directory is unchanged locally. -/
def MetadataBlock.update_message (freshId : Nat) (d : MetadataBlock) : MetadataBlock :=
  if d.message_id == 0 then { d with message_id := freshId } else d

/-- The `MetadataBlock::try_write`: write through the matching page if there is
one; otherwise fail (`none`) when the directory already holds 5 pages, else
create a fresh page at the offset's index, write it, append it and persist the
record. Returns the Rust return value paired with the mutated directory. -/
def MetadataBlock.try_write (fetch : Nat → Bytes) (freshId : Nat) (d : MetadataBlock)
    (offset : Nat) (data : Bytes) : Option (Bytes × Page) × MetadataBlock :=
  match d.pages.findIdx? (fun page => page.offset == offset / (1024 * 1024 * 8)) with
  | some i =>
    let page := d.pages.getD i (Page.new 0)
    let r := Page.write fetch page offset data
    (r.1, { d with pages := d.pages.set i r.2 })
  | none =>
    if d.pages.length ≥ 5 then
      (none, d)
    else
      let page := Page.new (offset / (1024 * 1024 * 8))
      let r := Page.write fetch page offset data
      let d2 := { d with pages := d.pages ++ [r.2] }
      (r.1, MetadataBlock.update_message freshId d2)

/-! ## Cache (src/cache.rs) -/

/-- A `CacheBlock`. `cache.rs` declares `offset`, `data`, `mask`; the
orchestrator in `lib.rs` additionally constructs and reads a `message_id`
field on it (`DiscordDrivePlugin::cache`), so the embedding carries it. -/
structure CacheBlock where
  offset : Nat
  message_id : Nat
  data : Bytes
  mask : BitMask
deriving DecidableEq

/-- The `CacheBlock::new` with the field order used by the orchestrator. -/
def CacheBlock.new (offset message_id : Nat) (data : Bytes) (mask : BitMask) : CacheBlock :=
  { offset := offset, message_id := message_id, data := data, mask := mask }

/-- The `Cache::read`: first block with `offset >= block.offset && offset + 4096 <
block.offset + block.data.len()` serves the read — a 4 KiB zero buffer when the
sub-block's mask bit is set, else the 4 KiB slice; `none` on a miss. -/
def Cache.read (blocks : List CacheBlock) (offset : Nat) : Option Bytes :=
  match blocks with
  | [] => none
  | block :: rest =>
    if block.offset ≤ offset ∧ offset + 4096 < block.offset + block.data.length then
      let rel := offset - block.offset
      if block.mask.get (rel / 4096) then
        some (List.replicate 4096 0)
      else
        some ((block.data.drop rel).take 4096)
    else
      Cache.read rest offset

/-- The `Cache::write`: same span test as `Cache::read`; on the first covering
block the 4 KiB chunk is copied in and the sub-block's mask bit set to
"chunk is all zero"; returns `false` leaving every block unchanged when no
block covers the offset. -/
def Cache.write (blocks : List CacheBlock) (offset : Nat) (data : Bytes) :
    Bool × List CacheBlock :=
  match blocks with
  | [] => (false, [])
  | block :: rest =>
    if block.offset ≤ offset ∧ offset + 4096 < block.offset + block.data.length then
      let rel := offset - block.offset
      let block2 := { block with
        data := spliceBytes block.data rel data,
        mask := block.mask.set (rel / 4096) (data.all (fun byte => byte == 0)) }
      (true, block2 :: rest)
    else
      let r := Cache.write rest offset data
      (r.1, block :: r.2)

/-- The `Cache::push` for capacity `S`: if `data.len() >= S`, `remove(0)` (the
oldest-inserted block) is returned and the new block appended; otherwise the
new block is appended and nothing returned. (`remove(0)` on an empty vector —
only reachable with `S = 0` — panics in Rust; the engine uses `S = 4`.) -/
def Cache.push (S : Nat) (blocks : List CacheBlock) (block : CacheBlock) :
    Option CacheBlock × List CacheBlock :=
  if blocks.length ≥ S then
    match blocks with
    | [] => (none, [block])
    | old :: rest => (some old, rest ++ [block])
  else
    (none, blocks ++ [block])

/-! ## Queue (src/queue.rs) -/

/-- A `QueueBlock`: a page plus its dirty 8 MiB buffer. -/
structure QueueBlock where
  page : Page
  data : Bytes
deriving DecidableEq

/-- The `Queue::push` for capacity `S` polls `while len >= S { sleep }` before
appending. Waiting never changes the length when no other thread drains the
queue, so the call completes exactly when the length is below `S` at the first
check; `none` models the push still blocked in the polling loop. -/
def Queue.push (S : Nat) (q : List QueueBlock) (page : Page) (data : Bytes) :
    Option (List QueueBlock) :=
  if q.length < S then some (q ++ [{ page := page, data := data }]) else none

/-- The `Queue::release_offset`: remove and return the first entry whose page index
matches, scanning in order; the queue is unchanged when nothing matches. -/
def Queue.release_offset (q : List QueueBlock) (offset : Nat) :
    Option (Page × Bytes) × List QueueBlock :=
  match q with
  | [] => (none, [])
  | b :: rest =>
    if b.page.offset == offset then
      (some (b.page, b.data), rest)
    else
      let r := Queue.release_offset rest offset
      (r.1, b :: r.2)

/-! ## Orchestrator (src/lib.rs) -/

/-- The cache and queue of a `DiscordDrivePlugin`; both have capacity 4 in the
source (`Cache<4>`, `Queue<4>`). -/
structure PluginState where
  cache : List CacheBlock
  queue : List QueueBlock
deriving DecidableEq

/-- The `DiscordDrivePlugin::cache`: push into the block cache; an evicted block is
pushed onto the write-back queue as a `Page` plus its buffer. `none` models the
queue push blocking because the queue is full. -/
def DiscordDrivePlugin.cachePut (s : PluginState) (block : CacheBlock) : Option PluginState :=
  match Cache.push 4 s.cache block with
  | (none, c2) => some { s with cache := c2 }
  | (some old, c2) =>
    match Queue.push 4 s.queue
        { offset := old.offset, message_id := old.message_id, zero_mask := old.mask }
        old.data with
    | some q2 => some { cache := c2, queue := q2 }
    | none => none

/-- The `DiscordDrivePlugin::read_cache`: release the page at `offset / 8MiB` from
the queue if present, re-cache it (possibly evicting into the queue) and serve
from the cache; otherwise serve from the cache directly. The outer `Option`
models the re-cache blocking on a full queue; the inner one is the Rust return
value, paired with the resulting state. -/
def DiscordDrivePlugin.read_cache (s : PluginState) (offset : Nat) :
    Option (Option Bytes × PluginState) :=
  match Queue.release_offset s.queue (offset / (1024 * 1024 * 8)) with
  | (some (page, data), q2) =>
    match DiscordDrivePlugin.cachePut { s with queue := q2 }
        (CacheBlock.new (offset / (1024 * 1024 * 8)) page.message_id data page.zero_mask) with
    | some s2 => some (Cache.read s2.cache offset, s2)
    | none => none
  | (none, _) => some (Cache.read s.cache offset, s)

/-! ## Spec-side buffer derivation (for the refinement comparison of C2)

The spec describes the buffer returned by `tryRead` as derived sub-block by
sub-block: each 4 KiB sub-block zero-filled exactly when its zero-mask bit is
set, and taken from the fetched bytes otherwise. -/

/-- One spec-side 4 KiB sub-block: zeros when the mask bit is set, else the
corresponding slice of the fetched bytes. -/
def specChunk (mask : BitMask) (fetched : Bytes) (i : Nat) : Bytes :=
  if mask.get i then List.replicate 4096 0 else (fetched.drop (4096 * i)).take 4096

/-- Concatenation of the spec-side sub-blocks from index `i` to 2047. -/
def specDerivedFrom (mask : BitMask) (fetched : Bytes) (i : Nat) : Bytes :=
  if i < 2048 then specChunk mask fetched i ++ specDerivedFrom mask fetched (i + 1) else []
termination_by 2048 - i

/-- The spec's sub-block-by-sub-block 8 MiB buffer. -/
def specDerivedBuffer (mask : BitMask) (fetched : Bytes) : Bytes :=
  specDerivedFrom mask fetched 0

/-! ## Concrete instances used by the claims -/

/-- Cache entry used for the C3 counterexample: byte offset 0, a full 8 MiB
buffer, empty zero-mask. -/
def c3Block : CacheBlock :=
  { offset := 0, message_id := 0, data := List.replicate 8388608 3, mask := BitMask.new }

/-- Page 0 of the C8 FIFO scenario (byte offset 0). -/
def c8A : CacheBlock :=
  { offset := 0, message_id := 0, data := List.replicate 8388608 5, mask := BitMask.new }

/-- Page 1 of the C8 FIFO scenario (byte offset 8 MiB). -/
def c8B : CacheBlock :=
  { offset := 8388608, message_id := 0, data := List.replicate 8388608 6, mask := BitMask.new }

/-- Page 2 of the C8 FIFO scenario (byte offset 16 MiB). -/
def c8C : CacheBlock :=
  { offset := 16777216, message_id := 0, data := List.replicate 8388608 7, mask := BitMask.new }

/-- Sequential pushes: `none` as soon as one of them blocks (which, with no
draining worker, is forever). -/
def Queue.pushAll (S : Nat) (q : List QueueBlock) : List (Page × Bytes) → Option (List QueueBlock)
  | [] => some q
  | e :: rest =>
    match Queue.push S q e.1 e.2 with
    | some q2 => Queue.pushAll S q2 rest
    | none => none

/-- The queue entry used in the C9 concrete backpressure scenario. -/
def c9Entry : Page × Bytes := (Page.new 0, [])

/-- The last-written bytes of page A in the C1 scenario: all ones. -/
def c1Data : Bytes := List.replicate 8388608 1

/-- Remote fetch model for C7; never consulted since the pages involved are
unpersisted (`message_id = 0`). -/
def c7fetch : Nat → Bytes := fun _ => []

/-- The fresh page of the C7 scenario after the all-zero 4 KiB write at
offset 0: its zero-mask bit 0 is set. -/
def c7p1 : Page := (Page.write c7fetch (Page.new 0) 0 (List.replicate 4096 0)).2

/-- Remote fetch model for the C10 witness. -/
def c10fetch : Nat → Bytes := fun _ => []

/-- The page of the C10 witness: persisted handle 5, empty mask. -/
def c10p : Page := { offset := 0, message_id := 5, zero_mask := BitMask.new }

/-- Remote fetch model for the C5 witness. -/
def c5fetch : Nat → Bytes := fun _ => []

/-- A full directory (5 pages, indices 0–4) for the C5 witness. -/
def c5dir : MetadataBlock :=
  { message_id := 1,
    pages := [Page.new 0, Page.new 1, Page.new 2, Page.new 3, Page.new 4] }

/-- The page of the C2 counterexample: handle 5, mask byte 0 = 1, i.e.
sub-block 0 is marked zero and sub-block 1 is not. -/
def c2Page : Page := { offset := 0, message_id := 5, zero_mask := BitMask.from_bytes [1] }

/-- The directory of the C2 counterexample. -/
def c2Dir : MetadataBlock := { message_id := 9, pages := [c2Page] }

/-- Remote fetch model for C2: handle 5 holds 8 MiB of the byte 7. -/
def c2fetch : Nat → Bytes := fun _ => List.replicate (1024 * 1024 * 8) 7

/-- The body line `MetadataBlock::as_text` writes for one page. -/
def pageLine (p : Page) : List Char :=
  to_base32 p.offset ++ [':'] ++ to_base32 p.message_id ++ [':'] ++ p.as_text

/-- A directory whose single page has mask byte 0 equal to 76 — the byte whose
base255 character is `':'`. -/
def c6Page : Page := { offset := 0, message_id := 0, zero_mask := BitMask.from_bytes [76] }

/-- The C6 counterexample directory. -/
def c6Dir : MetadataBlock := { message_id := 9, pages := [c6Page] }

/-- The directory of the C6 witness (the repository's own round-trip test
values). -/
def c6TestDir : MetadataBlock :=
  { message_id := 1234567890,
    pages := [{ offset := 0, message_id := 1234567891, zero_mask := BitMask.new }] }

/-! ## Helper lemmas -/

/-- The fuel bound is irrelevant as long as it is at least the value. -/
theorem to_base32Loop_congr (v : Nat) : ∀ (f1 f2 : Nat), v ≤ f1 → v ≤ f2 →
    to_base32Loop f1 v = to_base32Loop f2 v := by
  induction v using Nat.strong_induction_on with
  | _ v ih =>
    intro f1 f2 h1 h2
    cases v with
    | zero => cases f1 <;> cases f2 <;> rfl
    | succ w =>
      cases f1 with
      | zero => omega
      | succ g1 =>
        cases f2 with
        | zero => omega
        | succ g2 =>
          rw [to_base32Loop, to_base32Loop]
          have hlt : (w + 1) / 32 < w + 1 := Nat.div_lt_self (Nat.succ_pos w) (by omega)
          rw [ih ((w + 1) / 32) hlt g1 g2 (by omega) (by omega)]

/-- One unfolding of the digit loop at a positive value. -/
theorem to_base32Aux_succ (w : Nat) :
    to_base32Aux (w + 1) = base32Char ((w + 1) % 32) :: to_base32Aux ((w + 1) / 32) := by
  unfold to_base32Aux
  rw [to_base32Loop]
  have hlt : (w + 1) / 32 < w + 1 := Nat.div_lt_self (Nat.succ_pos w) (by omega)
  rw [to_base32Loop_congr ((w + 1) / 32) w ((w + 1) / 32) (by omega) (by omega)]

theorem getD_replicate_zero (n i : Nat) : (List.replicate n (0 : Nat)).getD i 0 = 0 := by
  simp [List.getD_eq_getElem?_getD, List.getElem?_replicate]
  split <;> rfl

theorem BitMask.get_new (i : Nat) : BitMask.new.get i = false := by
  show ((List.replicate 256 (0 : Nat)).getD (i / 8) 0).testBit (i % 8) = false
  rw [getD_replicate_zero]
  exact Nat.zero_testBit _

theorem slice_replicate (n a o k : Nat) (h : o + k ≤ n) :
    ((List.replicate n a).drop o).take k = List.replicate k a := by
  rw [List.drop_replicate, List.take_replicate, Nat.min_eq_left (by omega)]

theorem all_zero_replicate (n : Nat) :
    (List.replicate n (0 : Nat)).all (fun byte => byte == 0) = true := by
  simp [List.all_eq_true, List.mem_replicate]

theorem BitMask.get_set (m : BitMask) (i j : Nat) (v : Bool)
    (hm : m.mask.length = 256) (hi : i < 2048) :
    (m.set i v).get j = if j = i then v else m.get j := by
  unfold BitMask.set BitMask.get
  simp only [List.getD_eq_getElem?_getD]
  by_cases hb : j / 8 = i / 8
  · have hilen : i / 8 < m.mask.length := by omega
    rw [hb, List.getElem?_set_self hilen]
    have hji : j = i ↔ j % 8 = i % 8 := by omega
    by_cases hv : v
    · subst hv
      simp only [if_true]
      rw [Nat.one_shiftLeft, Option.getD_some, Nat.testBit_or, Nat.testBit_two_pow]
      by_cases hij : j = i
      · subst hij
        simp
      · have : ¬ (i % 8 = j % 8) := fun hc => hij (hji.mpr hc.symm)
        simp [hij, this]
    · simp only [hv, if_false, Bool.false_eq_true]
      rw [Nat.one_shiftLeft, Option.getD_some, Nat.testBit_and, Nat.testBit_xor,
        Nat.testBit_two_pow]
      have h255 : (255 : Nat) = 2 ^ 8 - 1 := by norm_num
      rw [h255, Nat.testBit_two_pow_sub_one]
      have hlt : j % 8 < 8 := Nat.mod_lt _ (by omega)
      by_cases hij : j = i
      · subst hij
        simp [hlt]
      · have : ¬ (i % 8 = j % 8) := fun hc => hij (hji.mpr hc.symm)
        simp [hij, hlt, this]
  · rw [List.getElem?_set_ne (fun hc => hb hc.symm)]
    have hij : j ≠ i := fun hc => hb (by rw [hc])
    simp [hij]

theorem find?_matching (p : Page) (idx : Nat) (h : p.offset = idx) (rest : List Page) :
    (p :: rest).find? (fun page => page.offset == idx) = some p := by
  simp [List.find?, h]

/-! ## C3: Cache::read span and miss behaviour -/

/-- C3 counterexample: offset 8384512 is 4 KiB-aligned and addresses the last
4 KiB sub-block of `c3Block`'s 8 MiB span, yet `Cache::read` returns `none` —
the span test `offset + 4096 < block.offset + len` is strict, so the claim
that the span includes its last sub-block is false. -/
theorem c3_counterexample :
    (c3Block.offset ≤ 8384512 ∧ 8384512 + 4096 ≤ c3Block.offset + c3Block.data.length
      ∧ 8384512 % 4096 = 0)
    ∧ Cache.read [c3Block] 8384512 = none := by
  have hd : c3Block.data = List.replicate 8388608 3 := rfl
  have ho : c3Block.offset = 0 := rfl
  constructor
  · refine ⟨by rw [ho]; omega, ?_, by decide⟩
    rw [hd, ho, List.length_replicate]
  · simp only [Cache.read]
    rw [hd, ho, List.length_replicate, if_neg (by omega)]

/-- C3 amended: `Cache::read` serves the first entry whose span contains the
offset under the strict test `block.offset ≤ offset ∧ offset + 4096 <
block.offset + len` (so the last 4 KiB sub-block of a span is NOT covered):
a 4 KiB zero buffer when the sub-block's zero-mask bit is set, the 4 KiB slice
otherwise, and `none` (never a zero buffer) when no entry passes the test. -/
theorem c3_amended_read_characterization (blocks : List CacheBlock) (offset : Nat) :
    Cache.read blocks offset =
      match blocks.find? (fun b =>
          decide (b.offset ≤ offset ∧ offset + 4096 < b.offset + b.data.length)) with
      | some b =>
        if b.mask.get ((offset - b.offset) / 4096) then some (List.replicate 4096 0)
        else some ((b.data.drop (offset - b.offset)).take 4096)
      | none => none := by
  induction blocks with
  | nil => rfl
  | cons block rest ih =>
    rw [Cache.read]
    by_cases h : block.offset ≤ offset ∧ offset + 4096 < block.offset + block.data.length
    · have hp : (fun b : CacheBlock =>
          decide (b.offset ≤ offset ∧ offset + 4096 < b.offset + b.data.length)) block = true :=
        decide_eq_true h
      rw [if_pos h, List.find?_cons_of_pos rest hp]
    · have hp : ¬ (fun b : CacheBlock =>
          decide (b.offset ≤ offset ∧ offset + 4096 < b.offset + b.data.length)) block = true := by
        simp only [decide_eq_true_eq]
        exact h
      rw [if_neg h, List.find?_cons_of_neg rest hp, ih]

/-! ## C8: Cache::push FIFO eviction -/

/-- C8: below capacity `Cache::push` appends and returns nothing; at capacity
it removes and returns the head — the oldest-inserted block, since insertion
always appends. `Cache::write` preserves the offsets of the resident blocks in
order, so intervening writes (and reads, which do not mutate) do not affect
eviction order. Pushing pages 0, 1, 2 into a capacity-2 cache evicts page 0:
a read of page 0 then misses while pages 1 and 2 hit. -/
theorem c8_push_fifo :
    (∀ (S : Nat) (blocks : List CacheBlock) (b : CacheBlock), blocks.length < S →
      Cache.push S blocks b = (none, blocks ++ [b]))
    ∧ (∀ (S : Nat) (old : CacheBlock) (rest : List CacheBlock) (b : CacheBlock),
        (old :: rest).length ≥ S →
        Cache.push S (old :: rest) b = (some old, rest ++ [b]))
    ∧ (∀ (blocks : List CacheBlock) (offset : Nat) (data : Bytes),
        (Cache.write blocks offset data).2.map (fun blk => blk.offset)
          = blocks.map (fun blk => blk.offset))
    ∧ ((Cache.push 2 (Cache.push 2 (Cache.push 2 [] c8A).2 c8B).2 c8C
          = (some c8A, [c8B, c8C]))
        ∧ Cache.read [c8B, c8C] 0 = none
        ∧ Cache.read [c8B, c8C] 8388608 = some (List.replicate 4096 6)
        ∧ Cache.read [c8B, c8C] 16777216 = some (List.replicate 4096 7)) := by
  have hBo : c8B.offset = 8388608 := rfl
  have hBd : c8B.data = List.replicate 8388608 6 := rfl
  have hBm : c8B.mask = BitMask.new := rfl
  have hCo : c8C.offset = 16777216 := rfl
  have hCd : c8C.data = List.replicate 8388608 7 := rfl
  have hCm : c8C.mask = BitMask.new := rfl
  refine ⟨?_, ?_, ?_, ?_, ?_, ?_, ?_⟩
  · intro S blocks b h
    unfold Cache.push
    rw [if_neg (by omega)]
  · intro S old rest b h
    unfold Cache.push
    rw [if_pos h]
  · intro blocks offset data
    induction blocks with
    | nil => rfl
    | cons block rest ih =>
      rw [Cache.write]
      split
      · rfl
      · simpa using ih
  · have h1 : Cache.push 2 [] c8A = (none, [c8A]) := by
      unfold Cache.push
      rw [if_neg (by decide)]
      exact rfl
    have h2 : Cache.push 2 [c8A] c8B = (none, [c8A, c8B]) := by
      unfold Cache.push
      rw [if_neg (by decide)]
      exact rfl
    have h3 : Cache.push 2 [c8A, c8B] c8C = (some c8A, [c8B, c8C]) := by
      unfold Cache.push
      rw [if_pos (by decide)]
      exact rfl
    rw [h1, h2, h3]
  · simp only [Cache.read]
    rw [hBo, hCo, if_neg (fun hc => by omega), if_neg (fun hc => by omega)]
  · simp only [Cache.read]
    rw [hBo, hBd, hBm, List.length_replicate, if_pos (by omega), BitMask.get_new,
      if_neg (by simp)]
    rw [Nat.sub_self, slice_replicate _ _ _ _ (by omega)]
  · simp only [Cache.read]
    rw [hBo, hCo, hCd, hCm, List.length_replicate, if_neg (fun hc => ?_),
      if_pos (by omega), BitMask.get_new, if_neg (by simp)]
    · rw [Nat.sub_self, slice_replicate _ _ _ _ (by omega)]
    · rw [hBd, List.length_replicate] at hc
      omega

/-- C8 witness: the general push clauses at concrete inputs. -/
theorem c8_push_fifo_witness :
    Cache.push 2 [] c8A = (none, [c8A])
    ∧ Cache.push 2 [c8B, c8C] c8A = (some c8B, [c8C, c8A]) := by
  refine ⟨c8_push_fifo.1 2 [] c8A (by decide), ?_⟩
  have h := c8_push_fifo.2.1 2 c8B [c8C] c8A (by decide)
  simpa using h

/-! ## C9: Queue::push backpressure bound -/

/-- C9: `Queue::push` appends exactly when the queue's length is below `S`
(with no draining worker the polling loop never exits otherwise, modelled by
`none`), a completed push grows the queue by one and never beyond `S` entries,
and with capacity 4 (the engine's `Queue<4>`) four pushes from empty succeed
while a fifth blocks. -/
theorem c9_push_backpressure :
    (∀ (S : Nat) (q : List QueueBlock) (p : Page) (d : Bytes), q.length < S →
      Queue.push S q p d = some (q ++ [{ page := p, data := d }]))
    ∧ (∀ (S : Nat) (q : List QueueBlock) (p : Page) (d : Bytes), q.length ≥ S →
      Queue.push S q p d = none)
    ∧ (∀ (S : Nat) (q : List QueueBlock) (p : Page) (d : Bytes) (q2 : List QueueBlock),
        Queue.push S q p d = some q2 → q2.length = q.length + 1 ∧ q2.length ≤ S)
    ∧ (Queue.pushAll 4 [] (List.replicate 4 c9Entry)
        = some (List.replicate 4 { page := Page.new 0, data := [] })
      ∧ Queue.pushAll 4 [] (List.replicate 5 c9Entry) = none) := by
  refine ⟨?_, ?_, ?_, by decide, by decide⟩
  · intro S q p d h
    unfold Queue.push
    rw [if_pos h]
  · intro S q p d h
    unfold Queue.push
    rw [if_neg (by omega)]
  · intro S q p d q2 h
    unfold Queue.push at h
    split at h
    · cases h
      constructor
      · simp
      · simp only [List.length_append, List.length_cons, List.length_nil]
        omega
    · cases h

/-! ## C1: evict-then-read consistency through the orchestrator -/

/-- C1: reading the 4 KiB-aligned offset 8388608 (the first sub-block of page
A, whose index is 1) releases A from the queue and promotes it into the cache,
but the promoted `CacheBlock` records the PAGE INDEX 1 as its `offset` while
`Cache::read` compares BYTE offsets, so the served read is `none` — not A's
last-written bytes. (The orchestrator then falls through to the directories
and ultimately returns zeros, although A's bytes were just dropped from the
queue.) -/
theorem c1_read_cache_misses_after_promote (dta : Bytes) (hlen : dta.length = 8388608) :
    (8388608 % 4096 = 0 ∧ 8388608 / (1024 * 1024 * 8) = 1)
    ∧ DiscordDrivePlugin.read_cache
        { cache := [],
          queue := [{ page := { offset := 1, message_id := 0, zero_mask := BitMask.new },
                      data := dta }] }
        8388608 =
      some (none, { cache := [CacheBlock.new 1 0 dta BitMask.new], queue := [] }) := by
  refine ⟨⟨by norm_num, by norm_num⟩, ?_⟩
  show some (Cache.read [CacheBlock.new 1 0 dta BitMask.new] 8388608,
      ({ cache := [CacheBlock.new 1 0 dta BitMask.new], queue := [] } : PluginState))
    = some (none, { cache := [CacheBlock.new 1 0 dta BitMask.new], queue := [] })
  have hread : Cache.read [CacheBlock.new 1 0 dta BitMask.new] 8388608 = none := by
    rw [Cache.read, if_neg]
    · rfl
    · rintro ⟨-, hc⟩
      have hd : (CacheBlock.new 1 0 dta BitMask.new).data = dta := rfl
      have ho : (CacheBlock.new 1 0 dta BitMask.new).offset = 1 := rfl
      rw [hd, ho, hlen] at hc
      omega
  rw [hread]

/-- C1 witness: the queue-release-then-promote miss at the concrete all-ones
page A. -/
theorem c1_read_cache_misses_after_promote_witness :
    (8388608 % 4096 = 0 ∧ 8388608 / (1024 * 1024 * 8) = 1)
    ∧ DiscordDrivePlugin.read_cache
        { cache := [],
          queue := [{ page := { offset := 1, message_id := 0, zero_mask := BitMask.new },
                      data := c1Data }] }
        8388608 =
      some (none, { cache := [CacheBlock.new 1 0 c1Data BitMask.new], queue := [] }) :=
  c1_read_cache_misses_after_promote c1Data
    (show (List.replicate 8388608 1).length = 8388608 from List.length_replicate 8388608 1)

/-! ## C7: sparse write then non-zero overwrite -/

/-- The value of `c7p1`, computed. -/
theorem c7p1_eq : c7p1 = { offset := 0, message_id := 0, zero_mask := BitMask.new.set 0 true } := by
  unfold c7p1
  simp only [Page.write, Page.new, all_zero_replicate, if_true]

/-- The `Page::write` on an unpersisted page (`message_id = 0`) with a not-all-zero
chunk: splices the chunk into a zero buffer and leaves the page — including
its zero-mask — completely unchanged. -/
theorem Page.write_nonzero_unpersisted (fetch : Nat → Bytes) (p : Page) (ooffset : Nat)
    (data : Bytes) (hnz : data.all (fun byte => byte == 0) = false)
    (hmid : p.message_id = 0) :
    Page.write fetch p ooffset data
      = (some (spliceBytes (List.replicate (1024 * 1024 * 8) 0)
            (ooffset - p.offset * (1024 * 1024 * 8)) data, p), p) := by
  simp only [Page.write, hnz, hmid, ne_eq, not_true_eq_false, if_false, Bool.false_eq_true,
    not_false_eq_true, ite_false, ite_true]

/-- C7: on a fresh page, an all-zero 4 KiB write at offset 0 sets zero-mask
bit 0; the claim (and §4.4/§8 of the spec) then requires a subsequent non-zero
write to the same sub-block to CLEAR the bit so that a later read returns the
patched bytes — but `Page::write`'s non-zero path never touches the mask: the
returned page is `c7p1` itself with the bit still set, and although the
patched buffer is returned, a subsequent `Page::read` of the page serves an
all-zero buffer instead of the patched bytes. -/
theorem c7_page_write_never_clears_mask :
    c7p1 = { offset := 0, message_id := 0, zero_mask := BitMask.new.set 0 true }
    ∧ c7p1.zero_mask.get 0 = true
    ∧ (Page.write c7fetch c7p1 0 (List.replicate 4096 1)).2 = c7p1
    ∧ (Page.write c7fetch c7p1 0 (List.replicate 4096 1)).1
        = some (List.replicate 4096 1 ++ List.replicate 8384512 0, c7p1)
    ∧ Page.read c7fetch c7p1 0 = List.replicate 8388608 0 := by
  have hbit : c7p1.zero_mask.get 0 = true := by
    rw [c7p1_eq]
    show (BitMask.new.set 0 true).get 0 = true
    rw [BitMask.get_set BitMask.new 0 0 true (by decide) (by decide)]
    simp
  have hall : (List.replicate 4096 (1 : Nat)).all (fun byte => byte == 0) = false := by
    rw [List.all_eq_false]
    exact ⟨1, List.mem_replicate.mpr ⟨by decide, rfl⟩, by decide⟩
  have hmid : c7p1.message_id = 0 := by rw [c7p1_eq]
  have hoff : c7p1.offset = 0 := by rw [c7p1_eq]
  have hw := Page.write_nonzero_unpersisted c7fetch c7p1 0 (List.replicate 4096 1) hall hmid
  rw [hoff] at hw
  have hsub : 0 - 0 * (1024 * 1024 * 8) = 0 := rfl
  rw [hsub] at hw
  have hsplice : spliceBytes (List.replicate (1024 * 1024 * 8) 0) 0 (List.replicate 4096 1)
      = List.replicate 4096 1 ++ List.replicate 8384512 0 := by
    unfold spliceBytes
    rw [List.take_zero, List.length_replicate, List.drop_replicate]
    norm_num
  refine ⟨c7p1_eq, hbit, ?_, ?_, ?_⟩
  · rw [hw]
  · rw [hw, hsplice]
  · simp only [Page.read, hoff, hsub, Nat.zero_div, hbit, ite_true]

/-! ## C10: frame effect of all-zero page writes -/

/-- C10: for any page and any all-zero chunk, `Page::write` returns exactly
the page's prior materialization (zeros when unpersisted, `Page::read`'s
result otherwise) with no byte modified, leaves `offset` and `message_id`
unchanged, sets the target sub-block's zero-mask bit, and changes no other
mask bit. -/
theorem c10_all_zero_write_frame (fetch : Nat → Bytes) (p : Page) (ooffset : Nat) (data : Bytes)
    (hz : data.all (fun byte => byte == 0) = true)
    (hm : p.zero_mask.mask.length = 256)
    (hi : (ooffset - p.offset * (1024 * 1024 * 8)) / 4096 < 2048) :
    (Page.write fetch p ooffset data).1 =
      some ((if p.message_id ≠ 0 then Page.read fetch p ooffset
             else List.replicate (1024 * 1024 * 8) 0),
            (Page.write fetch p ooffset data).2)
    ∧ (Page.write fetch p ooffset data).2.offset = p.offset
    ∧ (Page.write fetch p ooffset data).2.message_id = p.message_id
    ∧ (Page.write fetch p ooffset data).2.zero_mask.get
        ((ooffset - p.offset * (1024 * 1024 * 8)) / 4096) = true
    ∧ (∀ j, j ≠ (ooffset - p.offset * (1024 * 1024 * 8)) / 4096 →
        (Page.write fetch p ooffset data).2.zero_mask.get j = p.zero_mask.get j) := by
  have hw : Page.write fetch p ooffset data =
      (some ((if p.message_id ≠ 0 then Page.read fetch p ooffset
              else List.replicate (1024 * 1024 * 8) 0),
             { p with zero_mask :=
                p.zero_mask.set ((ooffset - p.offset * (1024 * 1024 * 8)) / 4096) true }),
       { p with zero_mask :=
          p.zero_mask.set ((ooffset - p.offset * (1024 * 1024 * 8)) / 4096) true }) := by
    simp only [Page.write, hz, if_true]
  rw [hw]
  refine ⟨rfl, rfl, rfl, ?_, ?_⟩
  · show (p.zero_mask.set ((ooffset - p.offset * (1024 * 1024 * 8)) / 4096) true).get
        ((ooffset - p.offset * (1024 * 1024 * 8)) / 4096) = true
    rw [BitMask.get_set p.zero_mask _ _ true hm hi]
    simp
  · intro j hj
    show (p.zero_mask.set ((ooffset - p.offset * (1024 * 1024 * 8)) / 4096) true).get j
        = p.zero_mask.get j
    rw [BitMask.get_set p.zero_mask _ j true hm hi, if_neg hj]

/-- C10 witness: the frame theorem at sub-block 1 of `c10p`. -/
theorem c10_all_zero_write_frame_witness :
    (Page.write c10fetch c10p 4096 (List.replicate 4096 0)).1 =
      some ((if c10p.message_id ≠ 0 then Page.read c10fetch c10p 4096
             else List.replicate (1024 * 1024 * 8) 0),
            (Page.write c10fetch c10p 4096 (List.replicate 4096 0)).2)
    ∧ (Page.write c10fetch c10p 4096 (List.replicate 4096 0)).2.offset = c10p.offset
    ∧ (Page.write c10fetch c10p 4096 (List.replicate 4096 0)).2.message_id = c10p.message_id
    ∧ (Page.write c10fetch c10p 4096 (List.replicate 4096 0)).2.zero_mask.get
        ((4096 - c10p.offset * (1024 * 1024 * 8)) / 4096) = true
    ∧ (∀ j, j ≠ (4096 - c10p.offset * (1024 * 1024 * 8)) / 4096 →
        (Page.write c10fetch c10p 4096 (List.replicate 4096 0)).2.zero_mask.get j
          = c10p.zero_mask.get j) :=
  c10_all_zero_write_frame c10fetch c10p 4096 (List.replicate 4096 0)
    (all_zero_replicate 4096) (by decide) (by decide)

/-! ## C5: directory capacity and try_write -/

/-- The `Page::write` always returns `Some`: both its branches do. -/
theorem Page.write_fst_isSome (fetch : Nat → Bytes) (p : Page) (ooffset : Nat) (data : Bytes) :
    ∃ v, (Page.write fetch p ooffset data).1 = some v := by
  simp only [Page.write]
  split
  · exact ⟨_, rfl⟩
  · exact ⟨_, rfl⟩

/-- The `MetadataBlock::update_message` never changes the page list. -/
theorem MetadataBlock.update_message_pages (freshId : Nat) (d : MetadataBlock) :
    (MetadataBlock.update_message freshId d).pages = d.pages := by
  unfold MetadataBlock.update_message
  split <;> rfl

/-- C5: under the invariant that a directory holds at most 5 pages,
`try_write` fails (returns `none`, leaving the directory unchanged) exactly
when no page matches the offset's page index and the list already holds 5
pages; otherwise it appends at most one page, so the ≤ 5 invariant is
preserved by every call. -/
theorem c5_try_write_capacity (fetch : Nat → Bytes) (freshId : Nat) (d : MetadataBlock)
    (offset : Nat) (data : Bytes) (h5 : d.pages.length ≤ 5) :
    ((MetadataBlock.try_write fetch freshId d offset data).1 = none ↔
      ((∀ pg ∈ d.pages, pg.offset ≠ offset / (1024 * 1024 * 8)) ∧ d.pages.length = 5))
    ∧ ((MetadataBlock.try_write fetch freshId d offset data).1 = none →
        (MetadataBlock.try_write fetch freshId d offset data).2 = d)
    ∧ (MetadataBlock.try_write fetch freshId d offset data).2.pages.length ≤ 5
    ∧ (MetadataBlock.try_write fetch freshId d offset data).2.pages.length
        ≤ d.pages.length + 1 := by
  cases hf : d.pages.findIdx? (fun page => page.offset == offset / (1024 * 1024 * 8)) with
  | some i =>
    have hex : ∃ pg ∈ d.pages, pg.offset = offset / (1024 * 1024 * 8) := by
      rw [List.findIdx?_eq_some_iff_getElem] at hf
      obtain ⟨hlt, hp, _⟩ := hf
      exact ⟨d.pages[i], List.getElem_mem hlt, by simpa using hp⟩
    obtain ⟨v, hv⟩ := Page.write_fst_isSome fetch
      (d.pages.getD i (Page.new 0)) offset data
    have hr : (MetadataBlock.try_write fetch freshId d offset data).1 = some v := by
      simp only [MetadataBlock.try_write, hf]
      exact hv
    have hp2 : (MetadataBlock.try_write fetch freshId d offset data).2.pages.length
        = d.pages.length := by
      simp only [MetadataBlock.try_write, hf]
      exact List.length_set d.pages i _
    refine ⟨?_, ?_, ?_, ?_⟩
    · rw [hr]
      simp only [reduceCtorEq, false_iff]
      rintro ⟨hall, -⟩
      obtain ⟨pg, hmem, heq⟩ := hex
      exact hall pg hmem heq
    · rw [hr]
      intro hc
      cases hc
    · rw [hp2]
      exact h5
    · rw [hp2]
      omega
  | none =>
    have hnone : ∀ pg ∈ d.pages, pg.offset ≠ offset / (1024 * 1024 * 8) := by
      rw [List.findIdx?_eq_none_iff] at hf
      intro pg hmem heq
      have := hf pg hmem
      simp [heq] at this
    by_cases hlen : d.pages.length ≥ 5
    · have hr : MetadataBlock.try_write fetch freshId d offset data = (none, d) := by
        simp only [MetadataBlock.try_write, hf]
        rw [if_pos hlen]
      rw [hr]
      exact ⟨iff_of_true rfl ⟨hnone, by omega⟩, fun _ => rfl, h5, Nat.le_succ _⟩
    · obtain ⟨v, hv⟩ := Page.write_fst_isSome fetch
        (Page.new (offset / (1024 * 1024 * 8))) offset data
      have hr : (MetadataBlock.try_write fetch freshId d offset data).1 = some v := by
        simp only [MetadataBlock.try_write, hf]
        rw [if_neg hlen]
        exact hv
      have hp2 : (MetadataBlock.try_write fetch freshId d offset data).2.pages.length
          = d.pages.length + 1 := by
        simp only [MetadataBlock.try_write, hf]
        rw [if_neg hlen]
        rw [MetadataBlock.update_message_pages]
        simp
      refine ⟨?_, ?_, ?_, ?_⟩
      · rw [hr]
        simp only [reduceCtorEq, false_iff]
        rintro ⟨-, hc⟩
        omega
      · rw [hr]
        intro hc
        cases hc
      · rw [hp2]
        omega
      · rw [hp2]

/-- C5 witness: the capacity theorem on a full directory at page index 5. -/
theorem c5_try_write_capacity_witness :
    ((MetadataBlock.try_write c5fetch 2 c5dir 41943040 []).1 = none ↔
      ((∀ pg ∈ c5dir.pages, pg.offset ≠ 41943040 / (1024 * 1024 * 8))
        ∧ c5dir.pages.length = 5))
    ∧ ((MetadataBlock.try_write c5fetch 2 c5dir 41943040 []).1 = none →
        (MetadataBlock.try_write c5fetch 2 c5dir 41943040 []).2 = c5dir)
    ∧ (MetadataBlock.try_write c5fetch 2 c5dir 41943040 []).2.pages.length ≤ 5
    ∧ (MetadataBlock.try_write c5fetch 2 c5dir 41943040 []).2.pages.length
        ≤ c5dir.pages.length + 1 :=
  c5_try_write_capacity c5fetch 2 c5dir 41943040 [] (by decide)

/-- C9 witness: the push clauses at concrete inputs. -/
theorem c9_push_backpressure_witness :
    Queue.push 4 [] (Page.new 0) [] = some [{ page := Page.new 0, data := [] }]
    ∧ Queue.push 1 [{ page := Page.new 0, data := [] }] (Page.new 1) [] = none
    ∧ (0 : Nat) + 1 ≤ 4 := by
  refine ⟨?_, c9_push_backpressure.2.1 1 [{ page := Page.new 0, data := [] }] (Page.new 1) []
    (by decide), ?_⟩
  · have h := c9_push_backpressure.1 4 [] (Page.new 0) [] (by decide)
    simpa using h
  · exact (c9_push_backpressure.2.2.1 4 [] (Page.new 0) []
      [{ page := Page.new 0, data := [] }] (by decide)).2

/-! ## C4: malformed directory records -/

/-- A base32 string containing a character outside the digit alphabet fails to
parse (the accumulation hits the `unwrap` panic). -/
theorem from_base32Aux_eq_none (l : List Char) (c : Char) (hc : c ∈ l)
    (hd : base32Digit c = none) : from_base32Aux l = none := by
  induction l with
  | nil => cases hc
  | cons a rest ih =>
    rw [from_base32Aux]
    rcases List.mem_cons.mp hc with h | h
    · rw [← h, hd]
    · rw [ih h]
      cases base32Digit a <;> rfl

/-- The `from_base32` aborts on any input containing a non-digit character. -/
theorem from_base32_eq_none (s : List Char) (c : Char) (hc : c ∈ s)
    (hd : base32Digit c = none) : from_base32 s = none := by
  unfold from_base32
  exact from_base32Aux_eq_none s.reverse c (List.mem_reverse.mpr hc) hd

/-- The `mapM` over `Option` fails as soon as one element fails. -/
theorem mapM_eq_none_of_mem {α β : Type} (f : α → Option β) (l : List α) (x : α)
    (hx : x ∈ l) (hf : f x = none) : l.mapM f = none := by
  induction l with
  | nil => cases hx
  | cons a rest ih =>
    rw [List.mapM_cons]
    rcases List.mem_cons.mp hx with h | h
    · rw [h] at hf
      rw [hf]
      rfl
    · rw [ih h]
      cases f a <;> rfl

/-- A body line with a missing field or an invalid base32 digit in its first
two fields fails to parse. -/
theorem parsePageLine_eq_none (line : List Char)
    (hbad : (splitSep ':' line).length < 3
      ∨ ∃ f ∈ (splitSep ':' line).take 2, ∃ c ∈ f, base32Digit c = none) :
    parsePageLine line = none := by
  unfold parsePageLine
  cases hs : splitSep ':' line with
  | nil => rfl
  | cons f0 t0 =>
    cases t0 with
    | nil => rfl
    | cons f1 t1 =>
      cases t1 with
      | nil => rfl
      | cons f2 t2 =>
        show (match from_base32 f0, from_base32 f1 with
              | some offset, some message_id => Page.from_text message_id offset f2
              | _, _ => none) = none
        rcases hbad with h | ⟨f, hfm, c, hcm, hd⟩
        · rw [hs] at h
          simp at h
          omega
        · rw [hs] at hfm
          simp only [List.take, List.mem_cons, List.not_mem_nil, or_false] at hfm
          rcases hfm with h | h
          · rw [from_base32_eq_none f0 c (h ▸ hcm) hd]
          · rw [from_base32_eq_none f1 c (h ▸ hcm) hd]
            cases from_base32 f0 <;> rfl

/-- C4 counterexample: the record `"METABLOCK\n0:0:*"` is malformed — `'*'` is
not in the base255 alphabet — yet `MetadataBlock::from_text` does NOT abort:
`base_255_to_byte` silently maps the unknown character to byte 0 and parsing
succeeds with a page whose mask byte is 0. -/
theorem c4_counterexample :
    MetadataBlock.from_text 3 "METABLOCK\n0:0:*".toList
      = some { message_id := 3,
               pages := [{ offset := 0, message_id := 0,
                           zero_mask := BitMask.from_bytes [0] }] }
    ∧ (∀ b < 256, byte_to_base_255 b ≠ '*') := by
  constructor
  · decide
  · decide

/-- C4 amended: a persisted record line with a missing field (fewer than three
`':'`-separated fields) or an invalid base32 digit in its page-index or
handle field is a load-time fatal error: `from_text` aborts. (Mask characters
outside the base255 alphabet do NOT abort: they decode to byte 0.) -/
theorem c4_amended_parse_aborts (id : Nat) (text : List Char) (line : List Char)
    (hline : line ∈ (rustLines text).drop 1)
    (hbad : (splitSep ':' line).length < 3
      ∨ ∃ f ∈ (splitSep ':' line).take 2, ∃ c ∈ f, base32Digit c = none) :
    MetadataBlock.from_text id text = none := by
  unfold MetadataBlock.from_text
  rw [mapM_eq_none_of_mem parsePageLine _ line hline (parsePageLine_eq_none line hbad)]
  rfl

/-- C4 witness: a record whose body line `"xy"` has no `':'`-separated fields
aborts the load. -/
theorem c4_amended_parse_aborts_witness :
    MetadataBlock.from_text 0 "METABLOCK\nxy".toList = none :=
  c4_amended_parse_aborts 0 ("METABLOCK\nxy".toList) ("xy".toList) (by decide)
    (Or.inl (by decide))

/-! ## C2: try_read and the derived buffer -/

/-- The `try_read` as a `find?`-map: the buffer comes from `Page::read` of the
first (by the uniqueness invariant, only) matching page. -/
theorem try_read_eq (fetch : Nat → Bytes) (d : MetadataBlock) (offset : Nat) :
    MetadataBlock.try_read fetch d offset
      = (d.pages.find? (fun page => page.offset == offset / (1024 * 1024 * 8))).map
          (fun pg => (Page.read fetch pg offset, pg)) := by
  unfold MetadataBlock.try_read
  cases d.pages.find? (fun page => page.offset == offset / (1024 * 1024 * 8)) <;> rfl

/-- C2 amended: `try_read` returns `none` exactly when no page of the
directory matches the offset's page index; when a page matches, it returns
that page's metadata together with a buffer determined ONLY by the requested
offset's sub-block mask bit — an all-zero 8 MiB buffer when that bit is set,
and the remote handle's fetched bytes verbatim otherwise (not a sub-block by
sub-block combination). -/
theorem c2_amended_try_read (fetch : Nat → Bytes) (d : MetadataBlock) (offset : Nat) :
    (MetadataBlock.try_read fetch d offset = none ↔
      ∀ pg ∈ d.pages, pg.offset ≠ offset / (1024 * 1024 * 8))
    ∧ (∀ pg, d.pages.find? (fun page => page.offset == offset / (1024 * 1024 * 8)) = some pg →
        MetadataBlock.try_read fetch d offset =
          some ((if pg.zero_mask.get ((offset - pg.offset * (1024 * 1024 * 8)) / 4096)
                 then List.replicate (1024 * 1024 * 8) 0
                 else fetch pg.message_id), pg)) := by
  constructor
  · rw [try_read_eq, Option.map_eq_none', List.find?_eq_none]
    constructor
    · intro h pg hmem heq
      exact h pg hmem (by simpa using heq)
    · intro h pg hmem hp
      exact h pg hmem (by simpa using hp)
  · intro pg hf
    rw [try_read_eq, hf]
    exact rfl

/-- C2 counterexample: reading offset 0 (sub-block 0, mask bit set) returns an
ALL-ZERO 8 MiB buffer, although sub-block 1's mask bit is clear and its bytes
in the spec's sub-block-by-sub-block derivation come from the fetched buffer
(byte value 7): the returned buffer has byte 0 at index 4096 where the claimed
derivation has byte 7. -/
theorem c2_counterexample :
    MetadataBlock.try_read c2fetch c2Dir 0
        = some (List.replicate (1024 * 1024 * 8) 0, c2Page)
    ∧ c2Page.zero_mask.get 1 = false
    ∧ (specDerivedBuffer c2Page.zero_mask (c2fetch c2Page.message_id)).getD 4096 0 = 7
    ∧ (List.replicate (1024 * 1024 * 8) 0).getD 4096 0 = 0 := by
  have hget0 : c2Page.zero_mask.get 0 = true := by decide
  have hget1 : c2Page.zero_mask.get 1 = false := by decide
  have hread : Page.read c2fetch c2Page 0 = List.replicate (1024 * 1024 * 8) 0 := by
    simp only [Page.read]
    rw [show (0 - c2Page.offset * (1024 * 1024 * 8)) / 4096 = 0 from by decide, hget0,
      if_pos rfl]
  refine ⟨?_, hget1, ?_, ?_⟩
  · rw [try_read_eq, show c2Dir.pages.find?
        (fun page => page.offset == 0 / (1024 * 1024 * 8)) = some c2Page from by decide,
      Option.map_some', hread]
  · have hchunk0 : specChunk c2Page.zero_mask (c2fetch c2Page.message_id) 0
        = List.replicate 4096 0 := by
      rw [specChunk, hget0, if_pos rfl]
    have hchunk1 : specChunk c2Page.zero_mask (c2fetch c2Page.message_id) 1
        = List.replicate 4096 7 := by
      rw [specChunk, hget1]
      rw [if_neg (by simp)]
      rw [show c2fetch c2Page.message_id = List.replicate (1024 * 1024 * 8) 7 from rfl]
      rw [show 4096 * 1 = 4096 from by norm_num]
      exact slice_replicate (1024 * 1024 * 8) 7 4096 4096 (by norm_num)
    have hbuf : specDerivedBuffer c2Page.zero_mask (c2fetch c2Page.message_id)
        = List.replicate 4096 0 ++ (List.replicate 4096 7
            ++ specDerivedFrom c2Page.zero_mask (c2fetch c2Page.message_id) 2) := by
      unfold specDerivedBuffer
      rw [specDerivedFrom, if_pos (by omega), hchunk0]
      rw [specDerivedFrom, if_pos (by omega), hchunk1]
    rw [hbuf, List.getD_eq_getElem?_getD,
      List.getElem?_append_right (by rw [List.length_replicate])]
    rw [List.length_replicate, Nat.sub_self,
      List.getElem?_append_left (by rw [List.length_replicate]; omega),
      List.getElem?_replicate_of_lt (by omega)]
    rfl
  · rw [List.getD_eq_getElem?_getD, List.getElem?_replicate_of_lt (by norm_num)]
    rfl

/-- C2 witness: the amended characterization at the concrete directory. -/
theorem c2_amended_try_read_witness :
    MetadataBlock.try_read c2fetch c2Dir 0 =
      some ((if c2Page.zero_mask.get ((0 - c2Page.offset * (1024 * 1024 * 8)) / 4096)
             then List.replicate (1024 * 1024 * 8) 0
             else c2fetch c2Page.message_id), c2Page) :=
  (c2_amended_try_read c2fetch c2Dir 0).2 c2Page (by decide)

/-! ## C6: directory record round trip -/

/-- The `splitSep` never returns an empty list of pieces. -/
theorem splitSep_ne_nil (sep : Char) (l : List Char) : splitSep sep l ≠ [] := by
  cases l with
  | nil => simp [splitSep]
  | cons c rest =>
    rw [splitSep]
    cases hs : splitSep sep rest with
    | nil => by_cases hc : (c == sep) = true <;> simp [hc]
    | cons h t => by_cases hc : (c == sep) = true <;> simp [hc]

/-- Splitting at the first separator: the separator-free prefix becomes the
first piece. -/
theorem splitSep_append (sep : Char) (l1 l2 : List Char) (h : sep ∉ l1) :
    splitSep sep (l1 ++ sep :: l2) = l1 :: splitSep sep l2 := by
  induction l1 with
  | nil =>
    rw [List.nil_append, splitSep]
    cases hs : splitSep sep l2 with
    | nil => exact absurd hs (splitSep_ne_nil sep l2)
    | cons a t => simp
  | cons c rest ih =>
    have hc : ¬ (c == sep) = true := by
      simp only [beq_iff_eq]
      intro hceq
      exact h (hceq ▸ List.mem_cons_self c rest)
    have hrest : sep ∉ rest := fun hm => h (List.mem_cons_of_mem c hm)
    rw [List.cons_append, splitSep, ih hrest]
    simp [hc]

/-- A separator-free string splits into a single piece. -/
theorem splitSep_no_sep (sep : Char) (l : List Char) (h : sep ∉ l) :
    splitSep sep l = [l] := by
  induction l with
  | nil => rfl
  | cons c rest ih =>
    have hc : ¬ (c == sep) = true := by
      simp only [beq_iff_eq]
      intro hceq
      exact h (hceq ▸ List.mem_cons_self c rest)
    have hrest : sep ∉ rest := fun hm => h (List.mem_cons_of_mem c hm)
    rw [splitSep, ih hrest]
    simp [hc]

/-- Every base32 digit character decodes back to its value. -/
theorem base32Digit_base32Char : ∀ d < 32, base32Digit (base32Char d) = some d := by decide

/-- Decoding inverts the digit loop. -/
theorem from_base32Aux_to_base32Aux (v : Nat) :
    from_base32Aux (to_base32Aux v) = some v := by
  induction v using Nat.strong_induction_on with
  | _ v ih =>
    cases v with
    | zero => rfl
    | succ w =>
      rw [to_base32Aux_succ, from_base32Aux,
        base32Digit_base32Char ((w + 1) % 32) (Nat.mod_lt _ (by omega)),
        ih ((w + 1) / 32) (Nat.div_lt_self (Nat.succ_pos w) (by omega))]
      show some ((w + 1) % 32 + 32 * ((w + 1) / 32)) = some (w + 1)
      rw [Nat.mod_add_div]

/-- Base32 round trip: `from_base32 (to_base32 v) = v`. -/
theorem from_base32_to_base32 (v : Nat) : from_base32 (to_base32 v) = some v := by
  cases v with
  | zero => rfl
  | succ w =>
    unfold to_base32 from_base32
    rw [to_base32Aux_succ, if_neg (by simp), List.reverse_reverse, ← to_base32Aux_succ]
    exact from_base32Aux_to_base32Aux (w + 1)

/-- Characters emitted by the digit loop lie in the base32 alphabet. -/
theorem to_base32Aux_chars (v : Nat) : ∀ c ∈ to_base32Aux v, c ∈ base32Alphabet := by
  induction v using Nat.strong_induction_on with
  | _ v ih =>
    cases v with
    | zero => intro c hc; cases hc
    | succ w =>
      rw [to_base32Aux_succ]
      intro c hc
      rcases List.mem_cons.mp hc with h | h
      · have h32 : (w + 1) % 32 < 32 := Nat.mod_lt _ (by omega)
        have hall : ∀ d < 32, base32Char d ∈ base32Alphabet := by decide
        exact h ▸ hall _ h32
      · exact ih ((w + 1) / 32) (Nat.div_lt_self (Nat.succ_pos w) (by omega)) c h

/-- Characters of a base32 rendering lie in the base32 alphabet. -/
theorem to_base32_chars (v : Nat) : ∀ c ∈ to_base32 v, c ∈ base32Alphabet := by
  intro c hc
  have hc2 : c ∈ (if to_base32Aux v = [] then ['0'] else (to_base32Aux v).reverse) := hc
  by_cases hz : to_base32Aux v = []
  · rw [if_pos hz] at hc2
    have : c = '0' := List.mem_singleton.mp hc2
    rw [this]
    decide
  · rw [if_neg hz] at hc2
    exact to_base32Aux_chars v c (List.mem_reverse.mp hc2)

/-- No base32 digit is a field or line separator. -/
theorem base32Alphabet_no_sep : ∀ c ∈ base32Alphabet, c ≠ ':' ∧ c ≠ '\n' := by decide

/-- No base255 character of a byte is a newline. -/
theorem byte255_no_newline : ∀ b < 256, byte_to_base_255 b ≠ '\n' := by decide

/-- Apart from byte 76, no base255 character is the field separator `':'`. -/
theorem byte255_no_colon : ∀ b < 256, b ≠ 76 → byte_to_base_255 b ≠ ':' := by decide

/-- Base255 round trip on bytes. -/
theorem byte255_roundtrip : ∀ b < 256, base_255_to_byte (byte_to_base_255 b) = b := by decide

/-- Splitting the line concatenation of newline-free lines on `'\n'`. -/
theorem splitSep_flatten (ls : List (List Char)) (h : ∀ l ∈ ls, ('\n' : Char) ∉ l) :
    splitSep '\n' ((ls.map (fun l => l ++ ['\n'])).flatten) = ls ++ [[]] := by
  induction ls with
  | nil => rfl
  | cons l rest ih =>
    rw [List.map_cons, List.flatten_cons, List.append_assoc, List.singleton_append,
      splitSep_append '\n' l _ (h l (List.mem_cons_self l rest)),
      ih (fun x hx => h x (List.mem_cons_of_mem l hx))]
    rfl

/-- A serialized page line contains no newline, provided the mask bytes are
genuine `u8` values. -/
theorem pageLine_no_newline (p : Page) (hb : ∀ b ∈ p.zero_mask.mask, b < 256) :
    ('\n' : Char) ∉ pageLine p := by
  unfold pageLine Page.as_text BitMask.as_bytes
  intro hmem
  simp only [List.mem_append, List.mem_singleton, List.mem_map] at hmem
  rcases hmem with ((((h | h) | h) | h) | h)
  · exact (base32Alphabet_no_sep '\n' (to_base32_chars _ _ h)).2 rfl
  · exact absurd h (by decide)
  · exact (base32Alphabet_no_sep '\n' (to_base32_chars _ _ h)).2 rfl
  · exact absurd h (by decide)
  · obtain ⟨b, hbm, hbc⟩ := h
    exact byte255_no_newline b (hb b hbm) hbc

/-- Splitting a serialized page line on `':'` recovers exactly the three
fields, provided no mask byte is 76 (whose base255 character IS `':'`). -/
theorem splitSep_pageLine (p : Page)
    (hb : ∀ b ∈ p.zero_mask.mask, b < 256 ∧ b ≠ 76) :
    splitSep ':' (pageLine p)
      = [to_base32 p.offset, to_base32 p.message_id, p.as_text] := by
  have h1 : (':' : Char) ∉ to_base32 p.offset := fun hmem =>
    (base32Alphabet_no_sep ':' (to_base32_chars _ _ hmem)).1 rfl
  have h2 : (':' : Char) ∉ to_base32 p.message_id := fun hmem =>
    (base32Alphabet_no_sep ':' (to_base32_chars _ _ hmem)).1 rfl
  have h3 : (':' : Char) ∉ p.as_text := by
    unfold Page.as_text BitMask.as_bytes
    intro hmem
    obtain ⟨b, hbm, hbc⟩ := List.mem_map.mp hmem
    exact byte255_no_colon b (hb b hbm).1 (hb b hbm).2 hbc
  have hassoc : pageLine p
      = to_base32 p.offset ++ ':' :: (to_base32 p.message_id ++ ':' :: p.as_text) := by
    unfold pageLine
    simp [List.append_assoc]
  rw [hassoc, splitSep_append ':' _ _ h1, splitSep_append ':' _ _ h2,
    splitSep_no_sep ':' _ h3]

/-- Parsing a serialized page line recovers the page. -/
theorem parsePageLine_pageLine (p : Page) (hm : p.zero_mask.mask.length = 256)
    (hb : ∀ b ∈ p.zero_mask.mask, b < 256 ∧ b ≠ 76) :
    parsePageLine (pageLine p) = some p := by
  unfold parsePageLine
  rw [splitSep_pageLine p hb]
  show (match from_base32 (to_base32 p.offset), from_base32 (to_base32 p.message_id) with
        | some offset, some message_id => Page.from_text message_id offset p.as_text
        | _, _ => none) = some p
  rw [from_base32_to_base32, from_base32_to_base32]
  show Page.from_text p.message_id p.offset p.as_text = some p
  have hlen : (p.as_text).length = 256 := by
    unfold Page.as_text BitMask.as_bytes
    rw [List.length_map, hm]
  unfold Page.from_text
  rw [if_pos (by omega)]
  have hmask : p.as_text.map base_255_to_byte = p.zero_mask.mask := by
    unfold Page.as_text BitMask.as_bytes
    rw [List.map_map]
    have hcongr : ∀ b ∈ p.zero_mask.mask, (base_255_to_byte ∘ byte_to_base_255) b = b :=
      fun b hbm => byte255_roundtrip b (hb b hbm).1
    rw [List.map_congr_left hcongr, List.map_id']
  have hfb : BitMask.from_bytes (p.as_text.map base_255_to_byte) = p.zero_mask := by
    unfold BitMask.from_bytes
    rw [hmask, hm, Nat.sub_self, List.replicate_zero, List.append_nil]
  rw [hfb]

/-- Parsing the serialized body lines recovers the page list. -/
theorem mapM_parsePageLine (pages : List Page)
    (hm : ∀ p ∈ pages, p.zero_mask.mask.length = 256)
    (hb : ∀ p ∈ pages, ∀ b ∈ p.zero_mask.mask, b < 256 ∧ b ≠ 76) :
    (pages.map pageLine).mapM parsePageLine = some pages := by
  induction pages with
  | nil => rfl
  | cons p rest ih =>
    rw [List.map_cons, List.mapM_cons,
      parsePageLine_pageLine p (hm p (List.mem_cons_self p rest))
        (hb p (List.mem_cons_self p rest)),
      ih (fun q hq => hm q (List.mem_cons_of_mem p hq))
        (fun q hq => hb q (List.mem_cons_of_mem p hq))]
    rfl

/-- The `rustLines` of a text whose `'\n'`-split ends in one trailing empty
piece. -/
theorem rustLines_of_split (text : List Char) (L : List (List Char))
    (h : splitSep '\n' text = L ++ [[]]) : rustLines text = L := by
  simp only [rustLines]
  rw [h, List.getLast?_concat, List.dropLast_concat, if_pos rfl]

/-- C6: for every directory whose pages carry genuine 256-byte masks with no
byte equal to 76, the serialized record is the `METABLOCK` header line
followed by one `<pageIndex>:<handle>:<mask>` line per page with a
256-character mask, and reparsing it under any record id yields exactly that
record id with an equal page list. (Byte 76 must be excluded: its base255
character is the field separator `':'` — see the counterexample.) -/
theorem c6_round_trip (rid : Nat) (d : MetadataBlock)
    (hm : ∀ p ∈ d.pages, p.zero_mask.mask.length = 256)
    (hb : ∀ p ∈ d.pages, ∀ b ∈ p.zero_mask.mask, b < 256 ∧ b ≠ 76) :
    rustLines (MetadataBlock.as_text d) = "METABLOCK".toList :: d.pages.map pageLine
    ∧ (∀ p ∈ d.pages, (Page.as_text p).length = 256
        ∧ pageLine p
          = to_base32 p.offset ++ [':'] ++ to_base32 p.message_id ++ [':'] ++ p.as_text)
    ∧ MetadataBlock.from_text rid (MetadataBlock.as_text d)
        = some { message_id := rid, pages := d.pages } := by
  have hsplit : splitSep '\n' (MetadataBlock.as_text d)
      = ("METABLOCK".toList :: d.pages.map pageLine) ++ [[]] := by
    unfold MetadataBlock.as_text
    have hform : ("METABLOCK\n".toList : List Char)
        ++ (d.pages.map (fun p =>
            to_base32 p.offset ++ [':'] ++ to_base32 p.message_id ++ [':']
              ++ p.as_text ++ ['\n'])).flatten
        = "METABLOCK".toList
            ++ '\n' :: ((d.pages.map pageLine).map (fun l => l ++ ['\n'])).flatten := by
      rw [List.map_map]
      rfl
    rw [hform, splitSep_append '\n' _ _ (by decide),
      splitSep_flatten (d.pages.map pageLine) (fun l hl => by
        obtain ⟨p, hp, hpl⟩ := List.mem_map.mp hl
        exact hpl ▸ pageLine_no_newline p (fun b hbm => (hb p hp b hbm).1)),
      List.cons_append]
  have hlines : rustLines (MetadataBlock.as_text d)
      = "METABLOCK".toList :: d.pages.map pageLine :=
    rustLines_of_split _ _ hsplit
  refine ⟨hlines, ?_, ?_⟩
  · intro p hp
    constructor
    · unfold Page.as_text BitMask.as_bytes
      rw [List.length_map, hm p hp]
    · rfl
  · unfold MetadataBlock.from_text
    rw [hlines]
    show ((d.pages.map pageLine).mapM parsePageLine).map _ = _
    rw [mapM_parsePageLine d.pages hm hb]
    rfl

/-- C6 counterexample: byte 76 encodes as the field separator `':'`, so the
serialized mask smuggles an extra `':'` into its line; `split(':')` then hands
`Page::from_text` a truncated (here: empty) mask field, and the reparsed
directory's page has an all-zero mask instead of mask byte 76 — the round
trip of the claim fails for mask byte value 76. -/
theorem c6_counterexample :
    byte_to_base_255 76 = ':'
    ∧ MetadataBlock.from_text 9 (MetadataBlock.as_text c6Dir)
        = some { message_id := 9,
                 pages := [{ offset := 0, message_id := 0,
                             zero_mask := BitMask.from_bytes [] }] }
    ∧ BitMask.from_bytes ([] : List Nat) ≠ BitMask.from_bytes [76] := by
  refine ⟨by decide, by decide, by decide⟩

/-- C6 witness: the round trip on the test directory. -/
theorem c6_round_trip_witness :
    rustLines (MetadataBlock.as_text c6TestDir)
        = "METABLOCK".toList :: c6TestDir.pages.map pageLine
    ∧ (∀ p ∈ c6TestDir.pages, (Page.as_text p).length = 256
        ∧ pageLine p
          = to_base32 p.offset ++ [':'] ++ to_base32 p.message_id ++ [':'] ++ p.as_text)
    ∧ MetadataBlock.from_text 1234567890 (MetadataBlock.as_text c6TestDir)
        = some { message_id := 1234567890, pages := c6TestDir.pages } :=
  c6_round_trip 1234567890 c6TestDir (by decide) (by decide)

end DAAFS
